import Mathlib

/-!
Shallow embedding of the formatted-output core of `src/stream/stdio.c`
(libstd stream layer): the ring buffer, the per-directive format-string
interpreter `print_handle_format_string`, the print driver `print`, and the
copy/truncate logic of `snprintf`.

Modelling conventions:
* The ring capacity `BUF_MAX` (= `BUF_SIZE`) is defined in `stream_priv.h`,
  which is not part of the sources; following the spec ("fixed compile-time
  capacity `C`") it is passed to every ring operation as a parameter `C`.
* Machine integers are `Nat`/`Int` with explicit `% 2^w` where the C code
  relies on wraparound (`uint8_t` fields of `fs_properties_t`, the
  `int -> uint64_t` argument conversions, the `size_t` arithmetic of
  `snprintf`).
* All characters emitted by the interpreter flow through
  `ring_buffer_write_char` in the C code; the interpreter model therefore
  returns the exact trace of characters handed to `ring_buffer_write_char`,
  and the effect on the ring is obtained by folding that trace with
  `ring_buffer_write_char`.
-/

/-- The NUL character terminating C strings. -/
def cNul : Char := Char.ofNat 0

/-- Model of `struct s_ring` (the global `ring_buffer` of stdio.c, line 64): byte
storage, `start`/`end` cursors and the `full` flag.  The storage is modelled
as a total function `Nat → Char`; only indices `< C` are meaningful.  The C
field `end` is a Lean keyword and is rendered `end_`. -/
structure s_ring where
  buf : Nat → Char
  start : Nat
  end_ : Nat
  full : Bool

/-- Model of `ring_buffer_write_char` (stdio.c lines 118-136): if `full`, the char is
discarded; otherwise it is stored at `end`; the cursor advances unless the
advance would reach `start`, in which case `full` is set (and `end` stays). -/
def ring_buffer_write_char (C : Nat) (c : Char) (r : s_ring) : s_ring :=
  if r.full then r
  else
    let r1 : s_ring := { r with buf := fun i => if i = r.end_ then c else r.buf i }
    if (r.end_ + 1) % C ≠ r.start then { r1 with end_ := (r.end_ + 1) % C }
    else { r1 with full := true }

/-- Folding a character sequence into the ring through
`ring_buffer_write_char` (the only write path of the C code). -/
def writeChars (C : Nat) (cs : List Char) (r : s_ring) : s_ring :=
  cs.foldl (fun acc c => ring_buffer_write_char C c acc) r

/-- The contiguous span `buf[a], buf[a+1], ..., buf[a+n-1]` handed to
`sys_log`. -/
def bufSpan (r : s_ring) (a n : Nat) : List Char :=
  (List.range n).map (fun k => r.buf (a + k))

/-- Model of `print_and_reset_buffer` (stdio.c lines 213-240): emits the live content
to the kernel log in at most two `sys_log` calls, then resets the cursors and
flags and zeroes the storage.  Returns the list of `sys_log` payloads and the
new ring state.  (`BUF_SIZE` at line 226 equals `BUF_MAX`, both modelled by
`C`.) -/
def print_and_reset_buffer (C : Nat) (r : s_ring) : List (List Char) × s_ring :=
  let calls :=
    if r.start < r.end_ then [bufSpan r r.start (r.end_ - r.start)]
    else if r.end_ < r.start then [bufSpan r r.start (C - r.start), bufSpan r 0 r.end_]
    else []
  (calls,
   { buf := fun i => if i < C then cNul else r.buf i
     start := 0
     end_ := 0
     full := false })

/-- Total number of bytes `print_and_reset_buffer` would send to the log
sink from state `r`: the observable "live byte count" of the ring. -/
def drain_len (C : Nat) (r : s_ring) : Nat :=
  ((print_and_reset_buffer C r).1.map List.length).sum

/-- Model of `ring_buffer_rewind` (stdio.c lines 247-268): removes the last `len`
written chars working back from `end`, zeroing them, wrapping through the
`0`/`C` boundary when `len` exceeds `end`.  Returns `0` and leaves the state
untouched when `len >= C`; otherwise returns `len`.  The `full` flag is never
touched. -/
def ring_buffer_rewind (C : Nat) (len : Nat) (r : s_ring) : Nat × s_ring :=
  if C ≤ len then (0, r)
  else if len ≤ r.end_ then
    (len,
     { r with
       buf := (fun i => if r.end_ - len ≤ i ∧ i < r.end_ then cNul else r.buf i)
       end_ := r.end_ - len })
  else
    (len,
     { r with
       buf := (fun i => if i < r.end_ ∨ (C - len + r.end_ ≤ i ∧ i < C) then cNul else r.buf i)
       end_ := C - len + r.end_ })

/-- Model of `ring_buffer_write_digit` (stdio.c lines 148-157) as a trace: digits
below 10 become `'0'+d`, digits 10..15 become `'a'+d-10`, anything larger is
silently dropped (no `write_char` call). -/
def ring_buffer_write_digit_trace (digit : Nat) : List Char :=
  if digit < 10 then [Char.ofNat ('0'.toNat + digit)]
  else if digit ≤ 15 then [Char.ofNat ('a'.toNat + digit - 10)]
  else []

/-- The digit-extraction loop of `ring_buffer_write_number` (stdio.c lines
188-192), least-significant digit first.  The fuel mirrors the 64-slot local
digit array; it is never exhausted for 64-bit values in bases ≥ 2. -/
def number_digits : Nat → Nat → Nat → List Nat
  | 0, value, base => [value % base]
  | fuel+1, value, base =>
    if value / base = 0 then [value % base]
    else value % base :: number_digits fuel (value / base) base

/-- Model of `ring_buffer_write_number` (stdio.c lines 181-202) as a trace: digits are
printed most-significant first through `ring_buffer_write_digit`. -/
def ring_buffer_write_number_trace (value base : Nat) : List Char :=
  ((number_digits 64 value base).reverse).flatMap ring_buffer_write_digit_trace

/-- Model of `get_number_len` (stdio.c lines 279-289): digit count of `value` in
`base`, at least 1.  Fuel as in `number_digits`. -/
def get_number_len : Nat → Nat → Nat → Nat
  | 0, _, _ => 1
  | fuel+1, value, base =>
    if value / base = 0 then 1 else 1 + get_number_len fuel (value / base) base

/-- C `strlen` on a modelled string (chars up to the first NUL). -/
def strlen (s : List Char) : Nat := (s.takeWhile (fun c => c ≠ cNul)).length

/-- Model of `ring_buffer_write_string` (stdio.c lines 165-175) as a trace: copies at
most `len` chars, stopping at the first NUL. -/
def ring_buffer_write_string_trace (str : List Char) (len : Nat) : List Char :=
  (str.take len).takeWhile (fun c => c ≠ cNul)

/-- C conversion of a signed value to `uint64_t` (used when an `int`, `long`,
`long long` or `short` argument is passed to `ring_buffer_write_number` /
`get_number_len`): reduction modulo `2^64`. -/
def toU64 (v : Int) : Nat := (v % (2^64 : Int)).toNat

/-- C cast `(unsigned char)` of an `int`. -/
def toUChar (v : Int) : Nat := (v % (256 : Int)).toNat

/-- C cast `(short)` of an `int` (two's-complement truncation). -/
def toInt16 (v : Int) : Int := (v + 2^15) % 2^16 - 2^15

/-- C cast of a `size_t` value to `int` (two's-complement, 32-bit). -/
def toInt32 (n : Nat) : Int :=
  if n % 2^32 < 2^31 then ((n % 2^32 : Nat) : Int)
  else ((n % 2^32 : Nat) : Int) - 2^32

/-- One typed variadic argument, as consumed by `va_arg` in the interpreter.
`intA` covers `int` (used by `d`/`i`, `c`, `h`/`hh`), `uintA` covers
`uint32_t` (`u`/`x`/`o`), `ptrA` covers `physaddr_t` (`p`). -/
inductive Arg where
  | intA (v : Int)
  | longA (v : Int)
  | llA (v : Int)
  | uintA (v : Nat)
  | strA (s : List Char)
  | ptrA (v : Nat)
deriving DecidableEq

/-- Result of `print_handle_format_string`: the C function returns `ret`
(0 = success, 1 = failure), stores the number of consumed template chars in
`*consumed` (0 on failure), and has emitted `out` to the ring; `args` is the
remaining `va_list`. -/
structure PFRes where
  ret : Nat
  consumed : Nat
  out : List Char
  args : List Arg
deriving DecidableEq

/-- The width-digit sub-loop of the `'0'` case (stdio.c lines 376-380):
greedily consumes decimal digits following the position of the `'0'` flag,
accumulating them into the `uint8_t` field `fs_prop.size` (hence `% 256`).
Returns (number of digits consumed, final size). -/
def widthScan (size : Nat) : List Char → Nat × Nat
  | c :: cs =>
    if '0' ≤ c ∧ c ≤ '9' then
      let p := widthScan ((size * 10 + (c.toNat - '0'.toNat)) % 256) cs
      (p.1 + 1, p.2)
    else (0, size)
  | [] => (0, size)

/-- The `do { switch ... } while (fmt[consumed])` loop of
`print_handle_format_string` (stdio.c lines 325-642).  `rest` is the suffix
of the format starting at the current scan position `pos`
(`fs_prop.consumed`); the returned `consumed` value is reduced `% 256` as the
C field is a `uint8_t`.  `none` models undefined behaviour (a `va_arg` whose
type does not match the supplied argument) or C-side non-termination; every
defined path of the C function is reproduced exactly. -/
def pfLoop : Nat → List Char → Nat → Bool → Bool → Bool → Nat → List Arg → Option PFRes
  | 0, _, _, _, _, _, _, _ => none
  | fuel+1, rest, pos, started, attr0, attrSize, size, args =>
    let c := rest.headD cNul
    if c = '%' then
      if started = false then
        let rest2 := rest.drop 1
        if rest2.headD cNul = cNul then some ⟨0, (pos + 2) % 256, [], args⟩
        else pfLoop fuel rest2 (pos + 1) true attr0 attrSize size args
      else if pos = 1 then some ⟨0, (pos + 1) % 256, ['%'], args⟩
      else some ⟨1, 0, [], args⟩
    else if c = '0' then
      if started = false then some ⟨1, 0, [], args⟩
      else
        let p := widthScan size (rest.drop 1)
        let attrSize2 := if p.2 ≠ 0 then true else attrSize
        let rest2 := rest.drop (p.1 + 1)
        if rest2.headD cNul = cNul then some ⟨0, (pos + p.1 + 2) % 256, [], args⟩
        else pfLoop fuel rest2 (pos + p.1 + 1) started true attrSize2 p.2 args
    else if c = 'd' ∨ c = 'i' then
      if started = false then some ⟨1, 0, [], args⟩
      else
        match args with
        | Arg.intA v :: args2 =>
          let u := toU64 v
          let len := get_number_len 64 u 10
          let pad := if attrSize && attr0 then List.replicate (size - len) '0' else []
          some ⟨0, (pos + 1) % 256, pad ++ ring_buffer_write_number_trace u 10, args2⟩
        | _ => none
    else if c = 'l' then
      if started = false then some ⟨1, 0, [], args⟩
      else if (rest.drop 1).headD cNul = 'l' then
        match args with
        | Arg.llA v :: args2 =>
          let u := toU64 v
          let len := get_number_len 64 u 10
          let pad := if attrSize && attr0 then List.replicate (size - len) '0' else []
          some ⟨0, (pos + 2) % 256, pad ++ ring_buffer_write_number_trace u 10, args2⟩
        | _ => none
      else
        match args with
        | Arg.longA v :: args2 =>
          let u := toU64 v
          let len := get_number_len 64 u 10
          let pad := if attrSize && attr0 then List.replicate (size - len) '0' else []
          some ⟨0, (pos + 1) % 256, pad ++ ring_buffer_write_number_trace u 10, args2⟩
        | _ => none
    else if c = 'h' then
      if started = false then some ⟨1, 0, [], args⟩
      else if (rest.drop 1).headD cNul = 'h' then
        match args with
        | Arg.intA v :: args2 =>
          let u := toUChar v
          let len := get_number_len 64 u 10
          let pad := if attrSize && attr0 then List.replicate (size - len) '0' else []
          some ⟨0, (pos + 2) % 256, pad ++ ring_buffer_write_number_trace u 10, args2⟩
        | _ => none
      else
        match args with
        | Arg.intA v :: args2 =>
          let u := toU64 (toInt16 v)
          let len := get_number_len 64 u 10
          let pad := if attrSize && attr0 then List.replicate (size - len) '0' else []
          some ⟨0, (pos + 1) % 256, pad ++ ring_buffer_write_number_trace u 10, args2⟩
        | _ => none
    else if c = 'u' then
      if started = false then some ⟨1, 0, [], args⟩
      else
        match args with
        | Arg.uintA v :: args2 =>
          let len := get_number_len 64 v 10
          let pad := if attrSize && attr0 then List.replicate (size - len) '0' else []
          some ⟨0, (pos + 1) % 256, pad ++ ring_buffer_write_number_trace v 10, args2⟩
        | _ => none
    else if c = 'p' then
      if started = false then some ⟨1, 0, [], args⟩
      else
        match args with
        | Arg.ptrA v :: args2 =>
          let len := get_number_len 64 v 16
          some ⟨0, (pos + 1) % 256,
            ring_buffer_write_string_trace ['0', 'x'] 2
              ++ List.replicate (size - len) '0'
              ++ ring_buffer_write_number_trace v 16, args2⟩
        | _ => none
    else if c = 'x' then
      if started = false then some ⟨1, 0, [], args⟩
      else
        match args with
        | Arg.uintA v :: args2 =>
          let len := get_number_len 64 v 16
          let pad := if attrSize && attr0 then List.replicate (size - len) '0' else []
          some ⟨0, (pos + 1) % 256, pad ++ ring_buffer_write_number_trace v 16, args2⟩
        | _ => none
    else if c = 'o' then
      if started = false then some ⟨1, 0, [], args⟩
      else
        match args with
        | Arg.uintA v :: args2 =>
          let len := get_number_len 64 v 8
          let pad := if attrSize && attr0 then List.replicate (size - len) '0' else []
          some ⟨0, (pos + 1) % 256, pad ++ ring_buffer_write_number_trace v 8, args2⟩
        | _ => none
    else if c = 's' then
      if started = false then some ⟨1, 0, [], args⟩
      else if attrSize && attr0 then some ⟨1, 0, [], args⟩
      else
        match args with
        | Arg.strA s :: args2 =>
          some ⟨0, (pos + 1) % 256, ring_buffer_write_string_trace s (strlen s), args2⟩
        | _ => none
    else if c = 'c' then
      if started = false then some ⟨1, 0, [], args⟩
      else if attrSize && attr0 then some ⟨1, 0, [], args⟩
      else
        match args with
        | Arg.intA v :: args2 =>
          some ⟨0, (pos + 1) % 256, [Char.ofNat (toUChar v)], args2⟩
        | _ => none
    else some ⟨1, 0, [], args⟩

/-- Model of `print_handle_format_string` (stdio.c lines 325-642), entered at the
`'%'` that opens the directive. -/
def print_handle_format_string (fmt : List Char) (args : List Arg) : Option PFRes :=
  pfLoop (fmt.length + 1) fmt 0 false false false 0 args

/-- The `while (fmt[i])` loop of `print` (stdio.c lines 649-668): literal
bytes are written through `ring_buffer_write_char` (accumulated in `acc`),
`'%'` hands the remaining suffix to the interpreter, failure aborts with
`-1`, and the scan cursor `i` advances by the reported consumed count. -/
def printLoop : Nat → List Char → Nat → List Arg → List Char →
    Option (Int × List Char × List Arg)
  | 0, _, _, _, _ => none
  | fuel+1, rest, i, args, acc =>
    match rest with
    | [] => some ((i : Int), acc, args)
    | ch :: rest2 =>
      if ch = cNul then some ((i : Int), acc, args)
      else if ch = '%' then
        match pfLoop (rest.length + 1) rest 0 false false false 0 args with
        | none => none
        | some res =>
          if res.ret ≠ 0 then some ((-1 : Int), acc, args)
          else printLoop fuel (rest.drop res.consumed) (i + res.consumed) res.args (acc ++ res.out)
      else printLoop fuel rest2 (i + 1) args (acc ++ [ch])

/-- Model of `print` (stdio.c lines 649-668): returns the final value of `i` (`-1` on
a failed directive) together with the trace of characters written to the
ring buffer. -/
def print (fmt : List Char) (args : List Arg) : Option (Int × List Char) :=
  (printLoop (fmt.length + 1) fmt 0 args []).map (fun t => (t.1, t.2.1))

/-- Runs `print` together with its effect on a ring-buffer state. -/
def print_ring (C : Nat) (fmt : List Char) (args : List Arg) (r : s_ring) :
    Option (Int × s_ring) :=
  (print fmt args).map (fun p => (p.1, writeChars C p.2 r))

/-- Modelled from the spec: the target is a 32-bit embedded platform
(`physaddr_t` is 32-bit), so `size_t` arithmetic is modulo `2^32`.  The
`snprintf` capacity underflow modelled below occurs for any `size_t` width. -/
def SIZE_T_MOD : Nat := 2^32

/-- The copy/truncate tail of `snprintf` (stdio.c lines 700-741) after
`print` has produced `sizew` characters: `to_copy` is `len - 1` in `size_t`
arithmetic when `sizew >= len`, else `sizew`; `memcpy` writes `to_copy` data
bytes from the just-produced span (`src`), one NUL terminator follows at
index `to_copy`, and `(int)to_copy` is returned.  Result:
(new destination contents, returned int, `to_copy`). -/
def snprintf_model (dst src : Nat → Char) (sizew len : Nat) :
    (Nat → Char) × Int × Nat :=
  let to_copy := if len ≤ sizew then (len + (SIZE_T_MOD - 1)) % SIZE_T_MOD else sizew
  (fun i => if i < to_copy then src i else if i = to_copy then cNul else dst i,
   toInt32 to_copy, to_copy)

/-! ### Sample ring states used by witnesses and counterexamples -/

/-- Empty ring state. -/
def ring0 : s_ring := ⟨fun _ => cNul, 0, 0, false⟩

/-- With capacity 4: three live bytes, exactly one free slot. -/
def ringNearFull : s_ring := ⟨fun _ => 'a', 2, 1, false⟩

/-- A `full` state with `start = end` (reachable via `ring_buffer_rewind`
from a saturated state). -/
def ringSat : s_ring := ⟨fun _ => 'a', 2, 2, true⟩

/-! ### Ring-buffer lemmas -/

theorem writeChars_nil (C : Nat) (r : s_ring) : writeChars C [] r = r := rfl

theorem writeChars_cons (C : Nat) (c : Char) (cs : List Char) (r : s_ring) :
    writeChars C (c :: cs) r = writeChars C cs (ring_buffer_write_char C c r) := rfl

theorem write_char_of_full (C : Nat) (c : Char) (r : s_ring) (h : r.full = true) :
    ring_buffer_write_char C c r = r := by
  simp [ring_buffer_write_char, h]

theorem writeChars_of_full (C : Nat) (cs : List Char) (r : s_ring) (h : r.full = true) :
    writeChars C cs r = r := by
  induction cs with
  | nil => rfl
  | cons c cs ih => rw [writeChars_cons, write_char_of_full C c r h, ih]

theorem write_char_fields (C : Nat) (c : Char) (r : s_ring)
    (h : (ring_buffer_write_char C c r).full = false) :
    r.full = false ∧ (ring_buffer_write_char C c r).start = r.start ∧
    (ring_buffer_write_char C c r).end_ = (r.end_ + 1) % C := by
  by_cases hf : r.full
  · rw [write_char_of_full C c r hf] at h
    rw [hf] at h
    cases h
  · simp only [Bool.not_eq_true] at hf
    refine ⟨hf, ?_⟩
    unfold ring_buffer_write_char at h ⊢
    rw [hf] at h ⊢
    by_cases hc : (r.end_ + 1) % C ≠ r.start
    · simp [hc]
    · simp [hc] at h

/-- While no write saturates the buffer, `start` is untouched and `end`
advances by the number of characters written (mod `C`). -/
theorem writeChars_fields (C : Nat) (cs : List Char) (r : s_ring)
    (he : r.end_ < C) (h : (writeChars C cs r).full = false) :
    r.full = false ∧ (writeChars C cs r).start = r.start ∧
    (writeChars C cs r).end_ = (r.end_ + cs.length) % C ∧
    (writeChars C cs r).end_ < C := by
  induction cs generalizing r with
  | nil =>
    rw [writeChars_nil] at h ⊢
    exact ⟨h, rfl, (Nat.mod_eq_of_lt he).symm, he⟩
  | cons c cs ih =>
    rw [writeChars_cons] at h ⊢
    have hw : (ring_buffer_write_char C c r).full = false := by
      by_cases hwf : (ring_buffer_write_char C c r).full
      · rw [writeChars_of_full C cs _ hwf] at h
        rw [hwf] at h
        cases h
      · simpa using hwf
    obtain ⟨hrf, hst, hen⟩ := write_char_fields C c r hw
    have hC : 0 < C := Nat.pos_of_ne_zero (by rintro rfl; omega)
    have he2 : (ring_buffer_write_char C c r).end_ < C := by
      rw [hen]; exact Nat.mod_lt _ hC
    obtain ⟨_, ihst, ihen, ihlt⟩ := ih (ring_buffer_write_char C c r) he2 h
    refine ⟨hrf, by rw [ihst, hst], ?_, ihlt⟩
    have harith : r.end_ + 1 + cs.length = r.end_ + (c :: cs).length := by
      simp only [List.length_cons]
      omega
    rw [ihen, hen, Nat.mod_add_mod, harith]

/-- C3 (amended): if the writes do not saturate the buffer (`full` is still
false afterwards) and `n < C`, rewinding by `n = cs.length` restores `start`,
`end` and `full` exactly. -/
theorem write_then_rewind_restores (C : Nat) (cs : List Char) (r : s_ring)
    (he : r.end_ < C) (hn : cs.length < C)
    (hfull : (writeChars C cs r).full = false) :
    (ring_buffer_rewind C cs.length (writeChars C cs r)).2.start = r.start ∧
    (ring_buffer_rewind C cs.length (writeChars C cs r)).2.end_ = r.end_ ∧
    (ring_buffer_rewind C cs.length (writeChars C cs r)).2.full = r.full := by
  obtain ⟨hrf, hst, hen, _⟩ := writeChars_fields C cs r he hfull
  set w := writeChars C cs r with hw
  set n := cs.length with hnn
  have hnc : ¬ C ≤ n := by omega
  rcases Nat.lt_or_ge (r.end_ + n) C with hlt | hge
  · have hE : w.end_ = r.end_ + n := by rw [hen]; exact Nat.mod_eq_of_lt hlt
    have hle : n ≤ w.end_ := by omega
    unfold ring_buffer_rewind
    rw [if_neg hnc, if_pos hle]
    exact ⟨hst, show w.end_ - n = r.end_ from by omega,
      show w.full = r.full from by rw [hfull, hrf]⟩
  · have hE : w.end_ = r.end_ + n - C := by
      rw [hen, Nat.mod_eq_sub_mod hge, Nat.mod_eq_of_lt (by omega)]
    have hle : ¬ n ≤ w.end_ := by omega
    unfold ring_buffer_rewind
    rw [if_neg hnc, if_neg hle]
    exact ⟨hst, show C - n + w.end_ = r.end_ from by omega,
      show w.full = r.full from by rw [hfull, hrf]⟩

/-- C3 (counterexample): with capacity 4 and three live bytes, one more
write saturates the buffer; rewinding by 1 does not restore the pre-write
state: `full` stays `true` (the pre-write state had `full = false`) and
`end` comes back wrong. -/
theorem write_then_rewind_cex :
    ringNearFull.full = false ∧ ringNearFull.end_ = 1 ∧
    (ring_buffer_rewind 4 1 (writeChars 4 ['x'] ringNearFull)).2.full = true ∧
    (ring_buffer_rewind 4 1 (writeChars 4 ['x'] ringNearFull)).2.end_ = 0 := by
  decide

/-- C3 (witness): a concrete non-saturating run through the amended
theorem. -/
theorem write_then_rewind_restores_w :
    (ring_buffer_rewind 8 2 (writeChars 8 ['a', 'b'] ring0)).2.start = ring0.start ∧
    (ring_buffer_rewind 8 2 (writeChars 8 ['a', 'b'] ring0)).2.end_ = ring0.end_ ∧
    (ring_buffer_rewind 8 2 (writeChars 8 ['a', 'b'] ring0)).2.full = ring0.full :=
  write_then_rewind_restores 8 ['a', 'b'] ring0 (by decide) (by decide) (by decide)

/-- The return value C5 claims: the number of live characters actually
removed, i.e. `min n live` (spec-side definition, for refutation). -/
def rewind_claimed_return (C n : Nat) (r : s_ring) : Nat :=
  min n (drain_len C r)

/-- C5 (counterexample): on an empty ring (`0` live bytes) with capacity 8,
`ring_buffer_rewind 3` returns `3`, not the number of characters actually
removed (`0`). -/
theorem rewind_return_cex :
    (ring_buffer_rewind 8 3 ring0).1 = 3 ∧ drain_len 8 ring0 = 0 ∧
    rewind_claimed_return 8 3 ring0 = 0 ∧ (3 : Nat) ≠ 0 := by
  decide

/-- C5 (amended): `ring_buffer_rewind` returns `0` and performs no mutation
when `n >= C`; for `n < C` it always returns exactly `n`, regardless of how
many live bytes the buffer holds. -/
theorem rewind_return (C n : Nat) (r : s_ring) :
    (C ≤ n → ring_buffer_rewind C n r = (0, r)) ∧
    (n < C → (ring_buffer_rewind C n r).1 = n) := by
  constructor
  · intro h
    unfold ring_buffer_rewind
    rw [if_pos h]
  · intro h
    unfold ring_buffer_rewind
    rw [if_neg (by omega)]
    by_cases hle : n ≤ r.end_
    · rw [if_pos hle]
    · rw [if_neg hle]

/-- C5 (witness): both branches of the amended theorem at concrete
inputs. -/
theorem rewind_return_w :
    ring_buffer_rewind 8 9 ring0 = (0, ring0) ∧ (ring_buffer_rewind 8 3 ring0).1 = 3 :=
  ⟨(rewind_return 8 9 ring0).1 (by decide), (rewind_return 8 3 ring0).2 (by decide)⟩

/-! ### The ring-buffer invariant (claim C9) -/

/-- The invariant exactly as C9 states it: cursors in `[0, C)`, the live
byte count (what a drain would emit) equals `(end - start) mod C` while not
`full`, and `full` implies `start = end`.  Spec-side definition, for
refutation. -/
def ring_invariant_claimed (C : Nat) (r : s_ring) : Prop :=
  r.start < C ∧ r.end_ < C ∧
  (r.full = false → drain_len C r = (C + r.end_ - r.start) % C) ∧
  (r.full = true → r.start = r.end_)

/-- The invariant the code actually maintains: cursors in `[0, C)` and the
live-byte formula while not `full`.  (`full` implies `(end+1) mod C = start`
at the moment `ring_buffer_write_char` sets it, but `ring_buffer_rewind`
does not maintain any relation between `full` and the cursors.) -/
def ring_invariant_amended (C : Nat) (r : s_ring) : Prop :=
  r.start < C ∧ r.end_ < C ∧
  (r.full = false → drain_len C r = (C + r.end_ - r.start) % C)

instance (C : Nat) (r : s_ring) : Decidable (ring_invariant_claimed C r) := by
  unfold ring_invariant_claimed
  infer_instance

instance (C : Nat) (r : s_ring) : Decidable (ring_invariant_amended C r) := by
  unfold ring_invariant_amended
  infer_instance

theorem bufSpan_length (r : s_ring) (a n : Nat) : (bufSpan r a n).length = n := by
  simp [bufSpan]

/-- For in-range cursors the drain emission count always equals
`(end - start) mod C`. -/
theorem drain_len_eq (C : Nat) (r : s_ring) (hs : r.start < C) (he : r.end_ < C) :
    drain_len C r = (C + r.end_ - r.start) % C := by
  unfold drain_len print_and_reset_buffer
  rcases Nat.lt_trichotomy r.start r.end_ with h | h | h
  · rw [if_pos h]
    simp only [List.map_cons, List.map_nil, bufSpan_length, List.sum_cons, List.sum_nil]
    rw [show C + r.end_ - r.start = C + (r.end_ - r.start) from by omega,
      Nat.add_mod_left, Nat.mod_eq_of_lt (by omega)]
    omega
  · rw [if_neg (by omega), if_neg (by omega)]
    rw [show C + r.end_ - r.start = C from by omega, Nat.mod_self]
    rfl
  · rw [if_neg (by omega), if_pos h]
    simp only [List.map_cons, List.map_nil, bufSpan_length, List.sum_cons, List.sum_nil]
    rw [Nat.mod_eq_of_lt (by omega)]
    omega

/-- In-range cursors imply the amended invariant. -/
theorem inv_of_bounds (C : Nat) (r : s_ring) (hs : r.start < C) (he : r.end_ < C) :
    ring_invariant_amended C r :=
  ⟨hs, he, fun _ => drain_len_eq C r hs he⟩

/-- C9 (counterexample): the state `ringNearFull` (capacity 4) satisfies the
claimed invariant, but writing one more character saturates the buffer and
leaves `start = 2`, `end = 1`: `full` does not imply `start = end`. -/
theorem ring_invariant_cex :
    ring_invariant_claimed 4 ringNearFull ∧
    ¬ ring_invariant_claimed 4 (ring_buffer_write_char 4 'x' ringNearFull) ∧
    (ring_buffer_write_char 4 'x' ringNearFull).full = true ∧
    (ring_buffer_write_char 4 'x' ringNearFull).start = 2 ∧
    (ring_buffer_write_char 4 'x' ringNearFull).end_ = 1 := by
  decide

/-- C9 (amended): `ring_buffer_write_char`, `print_and_reset_buffer` and
`ring_buffer_rewind` all preserve the amended invariant (cursors in
`[0, C)`; while `full` is false, the drain emission count equals
`(end - start) mod C`); moreover at the moment `ring_buffer_write_char`
sets `full`, the state satisfies `(end + 1) mod C = start` rather than
`start = end`. -/
theorem ring_ops_preserve_invariant (C : Nat) (c : Char) (n : Nat) (r : s_ring)
    (h : ring_invariant_amended C r) :
    ring_invariant_amended C (ring_buffer_write_char C c r) ∧
    ring_invariant_amended C (print_and_reset_buffer C r).2 ∧
    ring_invariant_amended C (ring_buffer_rewind C n r).2 ∧
    (r.full = false → (ring_buffer_write_char C c r).full = true →
      ((ring_buffer_write_char C c r).end_ + 1) % C = (ring_buffer_write_char C c r).start) := by
  obtain ⟨hs, he, _⟩ := h
  have hC : 0 < C := by omega
  refine ⟨?_, ?_, ?_, ?_⟩
  · unfold ring_buffer_write_char
    by_cases hf : r.full
    · rw [if_pos hf]; exact inv_of_bounds C r hs he
    · rw [if_neg hf]
      by_cases hc : (r.end_ + 1) % C ≠ r.start
      · rw [if_pos hc]
        exact inv_of_bounds C _ hs (Nat.mod_lt _ hC)
      · rw [if_neg hc]
        exact inv_of_bounds C _ hs he
  · exact inv_of_bounds C _ hC hC
  · unfold ring_buffer_rewind
    by_cases h1 : C ≤ n
    · rw [if_pos h1]; exact inv_of_bounds C r hs he
    · rw [if_neg h1]
      by_cases h2 : n ≤ r.end_
      · rw [if_pos h2]; exact inv_of_bounds C _ hs (by simp; omega)
      · rw [if_neg h2]; exact inv_of_bounds C _ hs (by simp; omega)
  · intro hf hset
    unfold ring_buffer_write_char at hset ⊢
    rw [hf] at hset ⊢
    simp only [Bool.false_eq_true, if_false] at hset ⊢
    by_cases hc : (r.end_ + 1) % C ≠ r.start
    · simp [hc] at hset
    · simp [hc]
      simpa using hc

/-- C9 (witness): the amended preservation theorem at a concrete state. -/
theorem ring_ops_preserve_invariant_w :
    ring_invariant_amended 4 (ring_buffer_write_char 4 'x' ringNearFull) ∧
    ring_invariant_amended 4 (print_and_reset_buffer 4 ringNearFull).2 ∧
    ring_invariant_amended 4 (ring_buffer_rewind 4 1 ringNearFull).2 ∧
    (ringNearFull.full = false → (ring_buffer_write_char 4 'x' ringNearFull).full = true →
      ((ring_buffer_write_char 4 'x' ringNearFull).end_ + 1) % 4 =
        (ring_buffer_write_char 4 'x' ringNearFull).start) :=
  ring_ops_preserve_invariant 4 'x' 1 ringNearFull (by decide)

/-! ### Drain behaviour on a saturated buffer (claim C10) -/

/-- C10 (counterexample): saturating a capacity-4 buffer by writing 4 chars
leaves `full = true` with `start = 0`, `end = 3` — not `start = end` — and a
drain then sends 3 bytes (`"abc"`) to the log sink, not nothing. -/
theorem drain_saturated_cex :
    (writeChars 4 ['a', 'b', 'c', 'd'] ring0).full = true ∧
    (writeChars 4 ['a', 'b', 'c', 'd'] ring0).start = 0 ∧
    (writeChars 4 ['a', 'b', 'c', 'd'] ring0).end_ = 3 ∧
    (print_and_reset_buffer 4 (writeChars 4 ['a', 'b', 'c', 'd'] ring0)).1
      = [['a', 'b', 'c']] := by
  decide

/-- C10 (amended): when `full` holds together with `start = end` (a state
reachable via rewind after saturation, though saturation itself leaves
`(end+1) mod C = start`), `print_and_reset_buffer` sends nothing to the log
sink, yet resets `start`, `end`, `full` and clears the storage. -/
theorem drain_saturated_silent (C : Nat) (r : s_ring)
    (_hf : r.full = true) (hse : r.start = r.end_) :
    (print_and_reset_buffer C r).1 = [] ∧
    (print_and_reset_buffer C r).2.start = 0 ∧
    (print_and_reset_buffer C r).2.end_ = 0 ∧
    (print_and_reset_buffer C r).2.full = false ∧
    (∀ i, i < C → (print_and_reset_buffer C r).2.buf i = cNul) := by
  unfold print_and_reset_buffer
  rw [hse]
  refine ⟨by simp, rfl, rfl, rfl, fun i hi => by simp [hi]⟩

/-- C10 (witness): the amended drain theorem at the concrete saturated
state `ringSat`. -/
theorem drain_saturated_silent_w :
    (print_and_reset_buffer 4 ringSat).1 = [] ∧
    (print_and_reset_buffer 4 ringSat).2.start = 0 :=
  ⟨(drain_saturated_silent 4 ringSat rfl rfl).1,
   (drain_saturated_silent 4 ringSat rfl rfl).2.1⟩

/-! ### Return value of `print` (claim C1) -/

/-- C1: `print` returns the number of template characters scanned, not the
number of characters produced.  `print("%d", 123)` emits the three
characters `"123"` to the ring buffer yet returns `2` (the length of the
`"%d"` template); the claimed return value would be `3`.  (`snprintf`'s own
code then copies and rewinds `print`'s return value as if it were the
produced length, so the code contradicts its own usage.) -/
theorem print_returns_scanned_not_produced :
    print ['%', 'd'] [Arg.intA 123] = some (2, ['1', '2', '3']) ∧
    (['1', '2', '3'] : List Char).length = 3 ∧ (2 : Int) ≠ 3 := by
  decide

/-! ### Signed decimal conversion (claim C2) -/

/-- C2: the `%d` directive passes the `int` argument straight into
`ring_buffer_write_number(uint64_t, ...)`; a negative value is converted
modulo `2^64`, so `print("%d", -1)` emits the twenty characters
`"18446744073709551615"` — never a leading `'-'` — instead of the claimed
signed decimal `"-1"`. -/
theorem print_percent_d_negative :
    print ['%', 'd'] [Arg.intA (-1)] =
      some (2, "18446744073709551615".toList) ∧
    toU64 (-1) = 2^64 - 1 ∧
    ('-' ∉ "18446744073709551615".toList) := by
  decide

/-! ### `snprintf` truncation (claim C4) -/

/-- C4 (counterexample): with destination capacity `len = 0`, the `size_t`
subtraction `len - 1` underflows: `to_copy` becomes `2^32 - 1`, the claimed
bound `to_copy ≤ len - 1` fails, and the destination is written far beyond
its capacity (index 5 receives a data byte).  Separately, for
`len = sizew = 2^31 + 1` the returned `(int)to_copy` is negative
(`-2^31`), not the copied length `2^31`. -/
theorem snprintf_len_zero_cex :
    (snprintf_model (fun _ => 'q') (fun _ => 'r') 0 0).2.2 = 2^32 - 1 ∧
    ¬ ((snprintf_model (fun _ => 'q') (fun _ => 'r') 0 0).2.2 ≤ 0 - 1) ∧
    (snprintf_model (fun _ => 'q') (fun _ => 'r') 0 0).1 5 = 'r' ∧
    (snprintf_model (fun _ => 'q') (fun _ => 'r') (2^31 + 1) (2^31 + 1)).2.1
      = -(2^31) ∧
    (snprintf_model (fun _ => 'q') (fun _ => 'r') (2^31 + 1) (2^31 + 1)).2.2
      = 2^31 := by
  decide

/-- C4 (amended): for `1 ≤ len` (with `len ≤ 2^31` so the `int` cast of the
return value is faithful) and a formatted result of at least `len`
characters, `snprintf` copies exactly `len - 1` data bytes, writes one NUL
terminator right after them, leaves every destination index `≥ len`
untouched, and returns the copied length `len - 1`. -/
theorem snprintf_truncates (dst src : Nat → Char) (sizew len : Nat)
    (h1 : 1 ≤ len) (h2 : len ≤ sizew) (h3 : len ≤ 2^31) :
    (snprintf_model dst src sizew len).2.2 = len - 1 ∧
    (snprintf_model dst src sizew len).1 (len - 1) = cNul ∧
    (∀ i, len ≤ i → (snprintf_model dst src sizew len).1 i = dst i) ∧
    (snprintf_model dst src sizew len).2.1 = ((len - 1 : Nat) : Int) := by
  have hc : (if len ≤ sizew then (len + (SIZE_T_MOD - 1)) % SIZE_T_MOD else sizew)
      = len - 1 := by
    rw [if_pos h2, SIZE_T_MOD]
    rw [show len + (2^32 - 1) = (len - 1) + 2^32 from by omega,
      Nat.add_mod_right, Nat.mod_eq_of_lt (by omega)]
  unfold snprintf_model
  rw [hc]
  refine ⟨rfl, ?_, ?_, ?_⟩
  · simp
  · intro i hi
    have h4 : ¬ i < len - 1 := by omega
    have h5 : ¬ i = len - 1 := by omega
    simp [h4, h5]
  · show toInt32 (len - 1) = ((len - 1 : Nat) : Int)
    unfold toInt32
    rw [Nat.mod_eq_of_lt (by omega), if_pos (by omega)]

/-- C4 (witness): the amended truncation theorem at `sizew = 5`,
`len = 3`. -/
theorem snprintf_truncates_w :
    (snprintf_model (fun _ => 'q') (fun _ => 'r') 5 3).2.2 = 2 ∧
    (snprintf_model (fun _ => 'q') (fun _ => 'r') 5 3).1 2 = cNul :=
  ⟨(snprintf_truncates (fun _ => 'q') (fun _ => 'r') 5 3
      (by decide) (by decide) (by norm_num)).1,
   (snprintf_truncates (fun _ => 'q') (fun _ => 'r') 5 3
      (by decide) (by decide) (by norm_num)).2.1⟩

/-! ### Interpreter step lemmas -/

/-- Width value accumulated by the `'0'` case over the digit characters
`ds` (`uint8_t` arithmetic, cf. `widthScan`). -/
def parsedWidth (ds : List Char) : Nat :=
  ds.foldl (fun a c => (a * 10 + (c.toNat - '0'.toNat)) % 256) 0

theorem widthScan_digits (ds : List Char) :
    ∀ (rest : List Char) (s : Nat),
    (∀ c ∈ ds, '0' ≤ c ∧ c ≤ '9') →
    ¬ ('0' ≤ rest.headD cNul ∧ rest.headD cNul ≤ '9') →
    widthScan s (ds ++ rest) =
      (ds.length, ds.foldl (fun a c => (a * 10 + (c.toNat - '0'.toNat)) % 256) s) := by
  induction ds with
  | nil =>
    intro rest s _ hrest
    cases rest with
    | nil => rfl
    | cons c cs =>
      simp only [List.headD_cons] at hrest
      simp [widthScan, hrest]
  | cons d ds ih =>
    intro rest s hds hrest
    have hd := hds d (List.mem_cons_self d ds)
    simp only [List.cons_append, widthScan, if_pos hd]
    rw [List.append_eq, ih rest _ (fun c hc => hds c (List.mem_cons_of_mem d hc)) hrest]
    simp

theorem pfLoop_start (f : Nat) (rest : List Char) (a0 as : Bool) (sz : Nat)
    (args : List Arg) :
    pfLoop (f + 1) ('%' :: rest) 0 false a0 as sz args =
      (if rest.headD cNul = cNul then some ⟨0, 2, [], args⟩
       else pfLoop f rest 1 true a0 as sz args) := rfl

theorem pfLoop_zero (f pos : Nat) (t : List Char) (a0 as : Bool) (sz : Nat)
    (args : List Arg) :
    pfLoop (f + 1) ('0' :: t) pos true a0 as sz args =
      (if (t.drop (widthScan sz t).1).headD cNul = cNul then
        some ⟨0, (pos + (widthScan sz t).1 + 2) % 256, [], args⟩
       else pfLoop f (t.drop (widthScan sz t).1) (pos + (widthScan sz t).1 + 1)
        true true (if (widthScan sz t).2 ≠ 0 then true else as) (widthScan sz t).2 args) := rfl

theorem pfLoop_term_d (f pos : Nat) (t : List Char) (a0 as : Bool) (sz : Nat)
    (v : Int) (args : List Arg) :
    pfLoop (f + 1) ('d' :: t) pos true a0 as sz (Arg.intA v :: args) =
      some ⟨0, (pos + 1) % 256,
        (if as && a0 then List.replicate (sz - get_number_len 64 (toU64 v) 10) '0' else [])
          ++ ring_buffer_write_number_trace (toU64 v) 10, args⟩ := rfl

theorem pfLoop_term_i (f pos : Nat) (t : List Char) (a0 as : Bool) (sz : Nat)
    (v : Int) (args : List Arg) :
    pfLoop (f + 1) ('i' :: t) pos true a0 as sz (Arg.intA v :: args) =
      some ⟨0, (pos + 1) % 256,
        (if as && a0 then List.replicate (sz - get_number_len 64 (toU64 v) 10) '0' else [])
          ++ ring_buffer_write_number_trace (toU64 v) 10, args⟩ := rfl

theorem pfLoop_term_u (f pos : Nat) (t : List Char) (a0 as : Bool) (sz : Nat)
    (v : Nat) (args : List Arg) :
    pfLoop (f + 1) ('u' :: t) pos true a0 as sz (Arg.uintA v :: args) =
      some ⟨0, (pos + 1) % 256,
        (if as && a0 then List.replicate (sz - get_number_len 64 v 10) '0' else [])
          ++ ring_buffer_write_number_trace v 10, args⟩ := rfl

theorem pfLoop_term_x (f pos : Nat) (t : List Char) (a0 as : Bool) (sz : Nat)
    (v : Nat) (args : List Arg) :
    pfLoop (f + 1) ('x' :: t) pos true a0 as sz (Arg.uintA v :: args) =
      some ⟨0, (pos + 1) % 256,
        (if as && a0 then List.replicate (sz - get_number_len 64 v 16) '0' else [])
          ++ ring_buffer_write_number_trace v 16, args⟩ := rfl

theorem pfLoop_term_o (f pos : Nat) (t : List Char) (a0 as : Bool) (sz : Nat)
    (v : Nat) (args : List Arg) :
    pfLoop (f + 1) ('o' :: t) pos true a0 as sz (Arg.uintA v :: args) =
      some ⟨0, (pos + 1) % 256,
        (if as && a0 then List.replicate (sz - get_number_len 64 v 8) '0' else [])
          ++ ring_buffer_write_number_trace v 8, args⟩ := rfl

theorem pfLoop_term_p (f pos : Nat) (t : List Char) (a0 as : Bool) (sz : Nat)
    (v : Nat) (args : List Arg) :
    pfLoop (f + 1) ('p' :: t) pos true a0 as sz (Arg.ptrA v :: args) =
      some ⟨0, (pos + 1) % 256,
        ring_buffer_write_string_trace ['0', 'x'] 2
          ++ List.replicate (sz - get_number_len 64 v 16) '0'
          ++ ring_buffer_write_number_trace v 16, args⟩ := rfl

/-- Evaluating the parse prefix `'%' '0' <digits>` down to the conversion
character: the directive state on reaching `X` has the zero flag set, the
size flag set iff the parsed width is nonzero, and `fs_prop.size` equal to
the parsed width. -/
theorem pfLoop_flag_width (ds : List Char) (X : Char) (f : Nat) (args : List Arg)
    (hds : ∀ c ∈ ds, '0' ≤ c ∧ c ≤ '9')
    (hX : ¬ ('0' ≤ X ∧ X ≤ '9')) (hXn : X ≠ cNul) :
    pfLoop (f + 2) ('%' :: '0' :: ds ++ [X]) 0 false false false 0 args =
      pfLoop f [X] (ds.length + 2) true true
        (if parsedWidth ds ≠ 0 then true else false) (parsedWidth ds) args := by
  have hscan : widthScan 0 (ds ++ [X]) = (ds.length, parsedWidth ds) := by
    rw [widthScan_digits ds [X] 0 hds (by simpa using hX)]
    rfl
  have hnz : ¬ ('0' : Char) = cNul := by decide
  rw [show ('%' :: '0' :: ds ++ [X] : List Char) = '%' :: ('0' :: (ds ++ [X])) from rfl,
    pfLoop_start]
  rw [if_neg (by simp [hnz])]
  rw [pfLoop_zero, hscan]
  have hdrop : (ds ++ [X]).drop ds.length = [X] := List.drop_left ds [X]
  rw [hdrop]
  simp only [List.headD_cons]
  rw [if_neg hXn]
  congr 1
  omega

/-! ### Zero-padded and bare numeric directives -/

theorem phfs_padded_d (ds : List Char)
    (hds : ∀ c ∈ ds, '0' ≤ c ∧ c ≤ '9') (hlen : ds.length ≤ 100)
    (v : Int) (args : List Arg) :
    print_handle_format_string ('%' :: '0' :: ds ++ ['d']) (Arg.intA v :: args) =
      some ⟨0, ds.length + 3,
        (if parsedWidth ds ≠ 0 then
          List.replicate (parsedWidth ds - get_number_len 64 (toU64 v) 10) '0' else [])
          ++ ring_buffer_write_number_trace (toU64 v) 10, args⟩ := by
  unfold print_handle_format_string
  rw [show ('%' :: '0' :: ds ++ ['d'] : List Char).length + 1 = (ds.length + 2) + 2 from by
    simp [List.length_append]]
  rw [pfLoop_flag_width ds 'd' (ds.length + 2) (Arg.intA v :: args) hds
    (by decide) (by decide)]
  rw [show ds.length + 2 = (ds.length + 1) + 1 from rfl, pfLoop_term_d]
  have hm : (ds.length + 1 + 1 + 1) % 256 = ds.length + 3 := by
    rw [Nat.mod_eq_of_lt (by omega)]
  rw [hm]
  by_cases hw : parsedWidth ds = 0 <;> simp [hw]

theorem phfs_padded_i (ds : List Char)
    (hds : ∀ c ∈ ds, '0' ≤ c ∧ c ≤ '9') (hlen : ds.length ≤ 100)
    (v : Int) (args : List Arg) :
    print_handle_format_string ('%' :: '0' :: ds ++ ['i']) (Arg.intA v :: args) =
      some ⟨0, ds.length + 3,
        (if parsedWidth ds ≠ 0 then
          List.replicate (parsedWidth ds - get_number_len 64 (toU64 v) 10) '0' else [])
          ++ ring_buffer_write_number_trace (toU64 v) 10, args⟩ := by
  unfold print_handle_format_string
  rw [show ('%' :: '0' :: ds ++ ['i'] : List Char).length + 1 = (ds.length + 2) + 2 from by
    simp [List.length_append]]
  rw [pfLoop_flag_width ds 'i' (ds.length + 2) (Arg.intA v :: args) hds
    (by decide) (by decide)]
  rw [show ds.length + 2 = (ds.length + 1) + 1 from rfl, pfLoop_term_i]
  have hm : (ds.length + 1 + 1 + 1) % 256 = ds.length + 3 := by
    rw [Nat.mod_eq_of_lt (by omega)]
  rw [hm]
  by_cases hw : parsedWidth ds = 0 <;> simp [hw]

theorem phfs_padded_u (ds : List Char)
    (hds : ∀ c ∈ ds, '0' ≤ c ∧ c ≤ '9') (hlen : ds.length ≤ 100)
    (v : Nat) (args : List Arg) :
    print_handle_format_string ('%' :: '0' :: ds ++ ['u']) (Arg.uintA v :: args) =
      some ⟨0, ds.length + 3,
        (if parsedWidth ds ≠ 0 then
          List.replicate (parsedWidth ds - get_number_len 64 v 10) '0' else [])
          ++ ring_buffer_write_number_trace v 10, args⟩ := by
  unfold print_handle_format_string
  rw [show ('%' :: '0' :: ds ++ ['u'] : List Char).length + 1 = (ds.length + 2) + 2 from by
    simp [List.length_append]]
  rw [pfLoop_flag_width ds 'u' (ds.length + 2) (Arg.uintA v :: args) hds
    (by decide) (by decide)]
  rw [show ds.length + 2 = (ds.length + 1) + 1 from rfl, pfLoop_term_u]
  have hm : (ds.length + 1 + 1 + 1) % 256 = ds.length + 3 := by
    rw [Nat.mod_eq_of_lt (by omega)]
  rw [hm]
  by_cases hw : parsedWidth ds = 0 <;> simp [hw]

theorem phfs_padded_x (ds : List Char)
    (hds : ∀ c ∈ ds, '0' ≤ c ∧ c ≤ '9') (hlen : ds.length ≤ 100)
    (v : Nat) (args : List Arg) :
    print_handle_format_string ('%' :: '0' :: ds ++ ['x']) (Arg.uintA v :: args) =
      some ⟨0, ds.length + 3,
        (if parsedWidth ds ≠ 0 then
          List.replicate (parsedWidth ds - get_number_len 64 v 16) '0' else [])
          ++ ring_buffer_write_number_trace v 16, args⟩ := by
  unfold print_handle_format_string
  rw [show ('%' :: '0' :: ds ++ ['x'] : List Char).length + 1 = (ds.length + 2) + 2 from by
    simp [List.length_append]]
  rw [pfLoop_flag_width ds 'x' (ds.length + 2) (Arg.uintA v :: args) hds
    (by decide) (by decide)]
  rw [show ds.length + 2 = (ds.length + 1) + 1 from rfl, pfLoop_term_x]
  have hm : (ds.length + 1 + 1 + 1) % 256 = ds.length + 3 := by
    rw [Nat.mod_eq_of_lt (by omega)]
  rw [hm]
  by_cases hw : parsedWidth ds = 0 <;> simp [hw]

theorem phfs_padded_o (ds : List Char)
    (hds : ∀ c ∈ ds, '0' ≤ c ∧ c ≤ '9') (hlen : ds.length ≤ 100)
    (v : Nat) (args : List Arg) :
    print_handle_format_string ('%' :: '0' :: ds ++ ['o']) (Arg.uintA v :: args) =
      some ⟨0, ds.length + 3,
        (if parsedWidth ds ≠ 0 then
          List.replicate (parsedWidth ds - get_number_len 64 v 8) '0' else [])
          ++ ring_buffer_write_number_trace v 8, args⟩ := by
  unfold print_handle_format_string
  rw [show ('%' :: '0' :: ds ++ ['o'] : List Char).length + 1 = (ds.length + 2) + 2 from by
    simp [List.length_append]]
  rw [pfLoop_flag_width ds 'o' (ds.length + 2) (Arg.uintA v :: args) hds
    (by decide) (by decide)]
  rw [show ds.length + 2 = (ds.length + 1) + 1 from rfl, pfLoop_term_o]
  have hm : (ds.length + 1 + 1 + 1) % 256 = ds.length + 3 := by
    rw [Nat.mod_eq_of_lt (by omega)]
  rw [hm]
  by_cases hw : parsedWidth ds = 0 <;> simp [hw]

theorem phfs_padded_p (ds : List Char)
    (hds : ∀ c ∈ ds, '0' ≤ c ∧ c ≤ '9') (hlen : ds.length ≤ 100)
    (v : Nat) (args : List Arg) :
    print_handle_format_string ('%' :: '0' :: ds ++ ['p']) (Arg.ptrA v :: args) =
      some ⟨0, ds.length + 3,
        '0' :: 'x' :: (List.replicate (parsedWidth ds - get_number_len 64 v 16) '0'
          ++ ring_buffer_write_number_trace v 16), args⟩ := by
  unfold print_handle_format_string
  rw [show ('%' :: '0' :: ds ++ ['p'] : List Char).length + 1 = (ds.length + 2) + 2 from by
    simp [List.length_append]]
  rw [pfLoop_flag_width ds 'p' (ds.length + 2) (Arg.ptrA v :: args) hds
    (by decide) (by decide)]
  rw [show ds.length + 2 = (ds.length + 1) + 1 from rfl, pfLoop_term_p]
  have hm : (ds.length + 1 + 1 + 1) % 256 = ds.length + 3 := by
    rw [Nat.mod_eq_of_lt (by omega)]
  rw [hm]
  simp only [ring_buffer_write_string_trace, strlen]
  rfl

theorem phfs_bare_d (v : Int) (args : List Arg) :
    print_handle_format_string ['%', 'd'] (Arg.intA v :: args) =
      some ⟨0, 2, ring_buffer_write_number_trace (toU64 v) 10, args⟩ := by
  unfold print_handle_format_string
  rw [pfLoop_start, if_neg (by decide)]
  rw [show (['%', 'd'] : List Char).length = 1 + 1 from rfl, pfLoop_term_d]
  simp

theorem phfs_bare_i (v : Int) (args : List Arg) :
    print_handle_format_string ['%', 'i'] (Arg.intA v :: args) =
      some ⟨0, 2, ring_buffer_write_number_trace (toU64 v) 10, args⟩ := by
  unfold print_handle_format_string
  rw [pfLoop_start, if_neg (by decide)]
  rw [show (['%', 'i'] : List Char).length = 1 + 1 from rfl, pfLoop_term_i]
  simp

theorem phfs_bare_u (v : Nat) (args : List Arg) :
    print_handle_format_string ['%', 'u'] (Arg.uintA v :: args) =
      some ⟨0, 2, ring_buffer_write_number_trace v 10, args⟩ := by
  unfold print_handle_format_string
  rw [pfLoop_start, if_neg (by decide)]
  rw [show (['%', 'u'] : List Char).length = 1 + 1 from rfl, pfLoop_term_u]
  simp

theorem phfs_bare_x (v : Nat) (args : List Arg) :
    print_handle_format_string ['%', 'x'] (Arg.uintA v :: args) =
      some ⟨0, 2, ring_buffer_write_number_trace v 16, args⟩ := by
  unfold print_handle_format_string
  rw [pfLoop_start, if_neg (by decide)]
  rw [show (['%', 'x'] : List Char).length = 1 + 1 from rfl, pfLoop_term_x]
  simp

theorem phfs_bare_o (v : Nat) (args : List Arg) :
    print_handle_format_string ['%', 'o'] (Arg.uintA v :: args) =
      some ⟨0, 2, ring_buffer_write_number_trace v 8, args⟩ := by
  unfold print_handle_format_string
  rw [pfLoop_start, if_neg (by decide)]
  rw [show (['%', 'o'] : List Char).length = 1 + 1 from rfl, pfLoop_term_o]
  simp

theorem phfs_bare_p (v : Nat) (args : List Arg) :
    print_handle_format_string ['%', 'p'] (Arg.ptrA v :: args) =
      some ⟨0, 2, '0' :: 'x' :: ring_buffer_write_number_trace v 16, args⟩ := by
  unfold print_handle_format_string
  rw [pfLoop_start, if_neg (by decide)]
  rw [show (['%', 'p'] : List Char).length = 1 + 1 from rfl, pfLoop_term_p]
  simp only [ring_buffer_write_string_trace, strlen, Nat.zero_sub]
  rfl

/-- C6: for the numeric conversions `d`/`i`/`u`/`x`/`o`, a directive of the
shape `%0<digits><conv>` emits `(width - digit_count)` literal `'0'`
characters before the value exactly when the parsed width is nonzero (the
zero flag and a size are then both set), and the value's own digits are
always emitted in full; a bare `%<conv>` (no flag, no width) emits no
padding.  In particular `"%05d"` formats 42 as `"00042"` and 123456 as
`"123456"`. -/
theorem numeric_zero_padding (ds : List Char)
    (hds : ∀ c ∈ ds, '0' ≤ c ∧ c ≤ '9') (hlen : ds.length ≤ 100) :
    (∀ (v : Int) (args : List Arg),
      print_handle_format_string ('%' :: '0' :: ds ++ ['d']) (Arg.intA v :: args) =
        some ⟨0, ds.length + 3,
          (if parsedWidth ds ≠ 0 then
            List.replicate (parsedWidth ds - get_number_len 64 (toU64 v) 10) '0' else [])
            ++ ring_buffer_write_number_trace (toU64 v) 10, args⟩) ∧
    (∀ (v : Int) (args : List Arg),
      print_handle_format_string ('%' :: '0' :: ds ++ ['i']) (Arg.intA v :: args) =
        some ⟨0, ds.length + 3,
          (if parsedWidth ds ≠ 0 then
            List.replicate (parsedWidth ds - get_number_len 64 (toU64 v) 10) '0' else [])
            ++ ring_buffer_write_number_trace (toU64 v) 10, args⟩) ∧
    (∀ (v : Nat) (args : List Arg),
      print_handle_format_string ('%' :: '0' :: ds ++ ['u']) (Arg.uintA v :: args) =
        some ⟨0, ds.length + 3,
          (if parsedWidth ds ≠ 0 then
            List.replicate (parsedWidth ds - get_number_len 64 v 10) '0' else [])
            ++ ring_buffer_write_number_trace v 10, args⟩) ∧
    (∀ (v : Nat) (args : List Arg),
      print_handle_format_string ('%' :: '0' :: ds ++ ['x']) (Arg.uintA v :: args) =
        some ⟨0, ds.length + 3,
          (if parsedWidth ds ≠ 0 then
            List.replicate (parsedWidth ds - get_number_len 64 v 16) '0' else [])
            ++ ring_buffer_write_number_trace v 16, args⟩) ∧
    (∀ (v : Nat) (args : List Arg),
      print_handle_format_string ('%' :: '0' :: ds ++ ['o']) (Arg.uintA v :: args) =
        some ⟨0, ds.length + 3,
          (if parsedWidth ds ≠ 0 then
            List.replicate (parsedWidth ds - get_number_len 64 v 8) '0' else [])
            ++ ring_buffer_write_number_trace v 8, args⟩) ∧
    (∀ (v : Int) (args : List Arg),
      print_handle_format_string ['%', 'd'] (Arg.intA v :: args) =
        some ⟨0, 2, ring_buffer_write_number_trace (toU64 v) 10, args⟩) ∧
    (∀ (v : Int) (args : List Arg),
      print_handle_format_string ['%', 'i'] (Arg.intA v :: args) =
        some ⟨0, 2, ring_buffer_write_number_trace (toU64 v) 10, args⟩) ∧
    (∀ (v : Nat) (args : List Arg),
      print_handle_format_string ['%', 'u'] (Arg.uintA v :: args) =
        some ⟨0, 2, ring_buffer_write_number_trace v 10, args⟩) ∧
    (∀ (v : Nat) (args : List Arg),
      print_handle_format_string ['%', 'x'] (Arg.uintA v :: args) =
        some ⟨0, 2, ring_buffer_write_number_trace v 16, args⟩) ∧
    (∀ (v : Nat) (args : List Arg),
      print_handle_format_string ['%', 'o'] (Arg.uintA v :: args) =
        some ⟨0, 2, ring_buffer_write_number_trace v 8, args⟩) ∧
    print ['%', '0', '5', 'd'] [Arg.intA 42] =
      some (4, ['0', '0', '0', '4', '2']) ∧
    print ['%', '0', '5', 'd'] [Arg.intA 123456] =
      some (4, ['1', '2', '3', '4', '5', '6']) :=
  ⟨phfs_padded_d ds hds hlen, phfs_padded_i ds hds hlen, phfs_padded_u ds hds hlen,
   phfs_padded_x ds hds hlen, phfs_padded_o ds hds hlen,
   phfs_bare_d, phfs_bare_i, phfs_bare_u, phfs_bare_x, phfs_bare_o,
   by decide, by decide⟩

/-- C6 (witness): the padded-directive theorem applied at `ds = ['5']`,
read off at `%05d` with value 42. -/
theorem numeric_zero_padding_w :
    print_handle_format_string ['%', '0', '5', 'd'] [Arg.intA 42] =
      some ⟨0, 4,
        (if parsedWidth ['5'] ≠ 0 then
          List.replicate (parsedWidth ['5'] - get_number_len 64 (toU64 42) 10) '0' else [])
          ++ ring_buffer_write_number_trace (toU64 42) 10, []⟩ :=
  (numeric_zero_padding ['5'] (by decide) (by decide)).1 42 []

/-- C7: the `p` conversion first emits the two literal characters `"0x"`,
then pads with `'0'` up to the parsed width (its padding loop has no
zero-flag test), then emits the value in lowercase hexadecimal; a bare `%p`
with pointer value `0xAB` yields exactly `"0xab"`. -/
theorem pointer_directive (ds : List Char)
    (hds : ∀ c ∈ ds, '0' ≤ c ∧ c ≤ '9') (hlen : ds.length ≤ 100) :
    (∀ (v : Nat) (args : List Arg),
      print_handle_format_string ('%' :: '0' :: ds ++ ['p']) (Arg.ptrA v :: args) =
        some ⟨0, ds.length + 3,
          '0' :: 'x' :: (List.replicate (parsedWidth ds - get_number_len 64 v 16) '0'
            ++ ring_buffer_write_number_trace v 16), args⟩) ∧
    (∀ (v : Nat) (args : List Arg),
      print_handle_format_string ['%', 'p'] (Arg.ptrA v :: args) =
        some ⟨0, 2, '0' :: 'x' :: ring_buffer_write_number_trace v 16, args⟩) ∧
    print ['%', 'p'] [Arg.ptrA 0xAB] = some (2, ['0', 'x', 'a', 'b']) :=
  ⟨phfs_padded_p ds hds hlen, phfs_bare_p, by decide⟩

/-- C7 (witness): the pointer theorem applied at `ds = ['4']`, value
`0xAB`. -/
theorem pointer_directive_w :
    print_handle_format_string ['%', '0', '4', 'p'] [Arg.ptrA 0xAB] =
      some ⟨0, 4,
        '0' :: 'x' :: (List.replicate (parsedWidth ['4'] - get_number_len 64 0xAB 16) '0'
          ++ ring_buffer_write_number_trace 0xAB 16), []⟩ :=
  (pointer_directive ['4'] (by decide) (by decide)).1 0xAB []

/-! ### Unknown conversion characters (claim C8) -/

theorem pfLoop_unknown (c : Char) (t : List Char) (args : List Arg) (f : Nat)
    (h1 : c ≠ '%') (h2 : c ≠ '0') (h3 : c ≠ 'd') (h4 : c ≠ 'i') (h5 : c ≠ 'l')
    (h6 : c ≠ 'h') (h7 : c ≠ 'u') (h8 : c ≠ 'p') (h9 : c ≠ 'x') (h10 : c ≠ 'o')
    (h11 : c ≠ 's') (h12 : c ≠ 'c') (hn : c ≠ cNul) :
    pfLoop (f + 2) ('%' :: c :: t) 0 false false false 0 args =
      some ⟨1, 0, [], args⟩ := by
  rw [pfLoop_start, if_neg (by simpa using hn)]
  show pfLoop (f + 1) (c :: t) 1 true false false 0 args = some ⟨1, 0, [], args⟩
  simp only [pfLoop, List.headD_cons]
  simp [h1, h2, h3, h4, h5, h6, h7, h8, h9, h10, h11, h12]

theorem printLoop_percent (f : Nat) (rest : List Char) (i : Nat) (args : List Arg)
    (acc : List Char) :
    printLoop (f + 1) ('%' :: rest) i args acc =
      (match pfLoop (('%' :: rest).length + 1) ('%' :: rest) 0 false false false 0 args with
       | none => none
       | some res =>
         if res.ret ≠ 0 then some ((-1 : Int), acc, args)
         else printLoop f (('%' :: rest).drop res.consumed) (i + res.consumed)
           res.args (acc ++ res.out)) := rfl

theorem printLoop_literals (pre suf : List Char)
    (hpre : ∀ a ∈ pre, a ≠ '%' ∧ a ≠ cNul) :
    ∀ (f i : Nat) (args : List Arg) (acc : List Char),
    printLoop (pre.length + f) (pre ++ suf) i args acc =
      printLoop f suf (i + pre.length) args (acc ++ pre) := by
  induction pre with
  | nil => intro f i args acc; simp
  | cons a pre ih =>
    intro f i args acc
    have ha := hpre a (List.mem_cons_self a pre)
    have hstep : printLoop ((a :: pre).length + f) ((a :: pre) ++ suf) i args acc =
        printLoop (pre.length + f) (pre ++ suf) (i + 1) args (acc ++ [a]) := by
      rw [show (a :: pre).length + f = (pre.length + f) + 1 from by
        simp only [List.length_cons]; omega]
      simp only [printLoop, List.cons_append]
      rw [if_neg ha.2, if_neg ha.1]
    rw [hstep,
      ih (fun x hx => hpre x (List.mem_cons_of_mem a hx)) f (i + 1) args (acc ++ [a])]
    have e1 : i + 1 + pre.length = i + (a :: pre).length := by
      simp only [List.length_cons]; omega
    have e2 : (acc ++ [a]) ++ pre = acc ++ a :: pre := by simp
    rw [e1, e2]

/-- C8: a directive whose conversion character is unrecognized makes
`print_handle_format_string` report failure (`ret = 1`) with zero consumed
characters; `print` then aborts the whole call returning `-1`, and every
literal byte written before the failing directive remains in the ring
buffer (no rollback). -/
theorem unknown_directive_aborts (pre : List Char) (c : Char) (t : List Char)
    (args : List Arg) (C : Nat) (r : s_ring)
    (hpre : ∀ a ∈ pre, a ≠ '%' ∧ a ≠ cNul)
    (hc : c ∉ (['%', '0', 'd', 'i', 'l', 'h', 'u', 'p', 'x', 'o', 's', 'c'] : List Char))
    (hn : c ≠ cNul) :
    print_handle_format_string ('%' :: c :: t) args = some ⟨1, 0, [], args⟩ ∧
    print (pre ++ '%' :: c :: t) args = some (-1, pre) ∧
    print_ring C (pre ++ '%' :: c :: t) args r = some (-1, writeChars C pre r) := by
  simp only [List.mem_cons, not_or] at hc
  obtain ⟨h1, h2, h3, h4, h5, h6, h7, h8, h9, h10, h11, h12, -⟩ := hc
  have hphfs : print_handle_format_string ('%' :: c :: t) args =
      some ⟨1, 0, [], args⟩ := by
    unfold print_handle_format_string
    rw [show ('%' :: c :: t : List Char).length + 1 = (t.length + 1) + 2 from by
      simp only [List.length_cons]]
    exact pfLoop_unknown c t args (t.length + 1)
      h1 h2 h3 h4 h5 h6 h7 h8 h9 h10 h11 h12 hn
  have hpl : pfLoop (('%' :: c :: t : List Char).length + 1) ('%' :: c :: t)
      0 false false false 0 args = some ⟨1, 0, [], args⟩ := hphfs
  have hprint : print (pre ++ '%' :: c :: t) args = some (-1, pre) := by
    unfold print
    rw [show (pre ++ '%' :: c :: t : List Char).length + 1 =
      pre.length + (('%' :: c :: t : List Char).length + 1) from by
      simp only [List.length_append, List.length_cons]; omega]
    rw [printLoop_literals pre ('%' :: c :: t) hpre _ 0 args []]
    have hstep : printLoop (('%' :: c :: t : List Char).length + 1) ('%' :: c :: t)
        (0 + pre.length) args ([] ++ pre) = some (-1, [] ++ pre, args) := by
      rw [printLoop_percent, hpl]
      simp
    rw [hstep]
    simp
  exact ⟨hphfs, hprint, by simp [print_ring, hprint]⟩

/-- C8 (witness): the template `"ab%z"` aborts with `-1`, leaving the two
literal bytes in the ring buffer. -/
theorem unknown_directive_aborts_w :
    print_handle_format_string ['%', 'z'] ([] : List Arg) = some ⟨1, 0, [], []⟩ ∧
    print (['a', 'b'] ++ ['%', 'z']) ([] : List Arg) = some (-1, ['a', 'b']) ∧
    print_ring 8 (['a', 'b'] ++ ['%', 'z']) [] ring0 =
      some (-1, writeChars 8 ['a', 'b'] ring0) :=
  unknown_directive_aborts ['a', 'b'] 'z' [] [] 8 ring0
    (by decide) (by decide) (by decide)
